import Mathlib

/-!
Verification development for the eGFR microsimulation trajectory engine
(`egfr_microsim`).  The Python source is shallowly embedded: pandas frames
become lists of records, float arithmetic becomes exact rational arithmetic
(with explicit rounding to two decimals, `round2q`, where the source calls
`.round(2)`), and the real-valued hazard/power-law mathematics is embedded
over `ℝ`.  Each claim about the specification is settled by a theorem below.
-/

/-- `round2q q` models Python's `round(x, 2)`: round to the nearest multiple
of `1/100`.  (Python rounds half-to-even on binary floats; exact ties at the
third decimal are immaterial to every claim below.) -/
def round2q (q : ℚ) : ℚ := (round (q * 100) : ℤ) / 100

theorem round2q_close (q : ℚ) : |round2q q - q| ≤ 1 / 200 := by
  have h := abs_sub_round (q * 100)
  unfold round2q
  rw [abs_sub_comm] at h
  have : |(round (q * 100) : ℚ) / 100 - q| = |(round (q * 100) : ℚ) - q * 100| / 100 := by
    rw [← abs_of_pos (show (0:ℚ) < 100 by norm_num), ← abs_div]
    congr 1
    field_simp
    ring
  rw [this]
  have h200 : |(round (q * 100) : ℚ) - q * 100| ≤ 1 / 2 := by
    exact_mod_cast h
  linarith

namespace Formulas

/-- Embedding of `egfr_to_stages` (egfr_formulas.py).  `np.select` evaluates
the condition list in order and falls back to `None`; the `if`-chain mirrors
that order exactly. -/
def egfr_to_stages (egfr : ℚ) : Option String :=
  if 90 < egfr then some "G1"
  else if 60 < egfr ∧ egfr ≤ 90 then some "G2"
  else if 45 < egfr ∧ egfr ≤ 60 then some "G3a"
  else if 30 < egfr ∧ egfr ≤ 45 then some "G3b"
  else if 15 < egfr ∧ egfr ≤ 30 then some "G4"
  else if 0 < egfr ∧ egfr ≤ 15 then some "G5"
  else none

/-- Embedding of `egfr_to_ranges` (egfr_formulas.py).  Note the source's last
condition `egfr <= 0` maps to choice `8`, so the function is total on ℚ and
the `None` default is unreachable. -/
def egfr_to_ranges (egfr : ℚ) : Option ℕ :=
  if 105 < egfr then some 1
  else if 90 < egfr ∧ egfr ≤ 105 then some 2
  else if 75 < egfr ∧ egfr ≤ 90 then some 3
  else if 60 < egfr ∧ egfr ≤ 75 then some 4
  else if 45 < egfr ∧ egfr ≤ 60 then some 5
  else if 30 < egfr ∧ egfr ≤ 45 then some 6
  else if 15 < egfr ∧ egfr ≤ 30 then some 7
  else if 0 < egfr ∧ egfr ≤ 15 then some 8
  else if egfr ≤ 0 then some 8
  else none

end Formulas

namespace Interv

/-- Embedding of `conditional_prob` (interventions.py): the conditional
probability of a new intervention given that a fraction is already
intervened.  The source performs the division with no guard. -/
def conditional_prob (interv_prob frac_intervened : ℚ) : ℚ :=
  (interv_prob - frac_intervened) / (1 - frac_intervened)

/-- A row of the frame passed to `sample_interventions`: the two intervention
indicators and the stage label carried by the row. -/
structure IRow where
  diag : ℕ
  nephr : ℕ
  stage_diag : String
  deriving DecidableEq, Repr

def indicOf (event_name : String) (r : IRow) : ℕ :=
  if event_name = "nephr" then r.nephr else r.diag

def setIndic (event_name : String) (v : ℕ) (r : IRow) : IRow :=
  if event_name = "nephr" then { r with nephr := v } else { r with diag := v }

/-- Embedding of `frac_already_intervened` (interventions.py). -/
def frac_already_intervened (df : List IRow) (event_name : String) : ℚ :=
  ((df.filter (fun r => indicOf event_name r = 1)).length : ℚ) / (df.length : ℚ)

/-- Embedding of `sample_interventions` (interventions.py) on the
common-random-numbers path (`common_rn` supplied): `samples = (common_rn <=
prob)*1`, the whole indicator column is overwritten with the fresh samples,
and for `nephr` the probability is divided by the diagnosed fraction and the
sampled column is masked by `diag`.  The initial `assert` on a unique
`stage_diag` is the `Except.error` branch; the stage-specific target
probability `interv_prob` (a `params` table lookup in the source) is passed
as an argument. -/
def sample_interventions (df : List IRow) (event_name : String)
    (interv_prob : ℚ) (common_rn : List ℚ) : Except String (List IRow) :=
  if (df.map (·.stage_diag)).dedup.length ≠ 1 then
    Except.error "Intervention sampling for frames with multiple distinct values of stage_diag not implemented"
  else
    let frac_intervened := frac_already_intervened df event_name
    let prob0 := conditional_prob interv_prob frac_intervened
    let prob := if event_name = "nephr" then prob0 / frac_already_intervened df "diag" else prob0
    let samples := common_rn.map (fun u => if u ≤ prob then 1 else 0)
    let final_df := (df.zip samples).map (fun rs => setIndic event_name rs.2 rs.1)
    if event_name = "nephr" then
      Except.ok (final_df.map (fun r => { r with nephr := r.nephr * r.diag }))
    else
      Except.ok final_df

end Interv

namespace Formulas

/-- C5 counterexample: the claim says both classifiers return an
undefined/null result for every eGFR ≤ 0, but `egfr_to_ranges` maps every
eGFR ≤ 0 (here −1) to bucket 8 via its explicit `egfr <= 0` condition. -/
theorem C5_range_neg_counterexample : egfr_to_ranges (-1) = some 8 := by decide

/-- C5 (amended): `egfr_to_stages` realizes exactly the documented half-open
partition of (0, ∞) into the six stages G1..G5 (so each eGFR > 0 gets exactly
one stage, no gaps or overlaps) and returns `none` exactly on eGFR ≤ 0;
`egfr_to_ranges` maps each eGFR > 0 to exactly one of the 8 buckets, but maps
every eGFR ≤ 0 to bucket 8 rather than an undefined result. -/
theorem C5_stage_range_partition :
    (∀ q : ℚ,
      ((egfr_to_stages q = some "G1") ↔ 90 < q) ∧
      ((egfr_to_stages q = some "G2") ↔ 60 < q ∧ q ≤ 90) ∧
      ((egfr_to_stages q = some "G3a") ↔ 45 < q ∧ q ≤ 60) ∧
      ((egfr_to_stages q = some "G3b") ↔ 30 < q ∧ q ≤ 45) ∧
      ((egfr_to_stages q = some "G4") ↔ 15 < q ∧ q ≤ 30) ∧
      ((egfr_to_stages q = some "G5") ↔ 0 < q ∧ q ≤ 15) ∧
      ((egfr_to_stages q = none) ↔ q ≤ 0)) ∧
    (∀ q : ℚ, 0 < q → ∃ n, egfr_to_ranges q = some n ∧ 1 ≤ n ∧ n ≤ 8) ∧
    (∀ q : ℚ, q ≤ 0 → egfr_to_ranges q = some 8) := by
  refine ⟨fun q => ?_, fun q hq => ?_, fun q hq => ?_⟩
  · unfold egfr_to_stages
    split_ifs with h1 h2 h3 h4 h5 h6
    · refine ⟨?_, ?_, ?_, ?_, ?_, ?_, ?_⟩ <;> simp <;> intros <;> linarith
    · obtain ⟨ha, hb⟩ := h2
      refine ⟨?_, ?_, ?_, ?_, ?_, ?_, ?_⟩ <;> simp <;>
        first | (constructor <;> linarith) | linarith | (intros; linarith)
    · obtain ⟨ha, hb⟩ := h3
      refine ⟨?_, ?_, ?_, ?_, ?_, ?_, ?_⟩ <;> simp <;>
        first | (constructor <;> linarith) | linarith | (intros; linarith)
    · obtain ⟨ha, hb⟩ := h4
      refine ⟨?_, ?_, ?_, ?_, ?_, ?_, ?_⟩ <;> simp <;>
        first | (constructor <;> linarith) | linarith | (intros; linarith)
    · obtain ⟨ha, hb⟩ := h5
      refine ⟨?_, ?_, ?_, ?_, ?_, ?_, ?_⟩ <;> simp <;>
        first | (constructor <;> linarith) | linarith | (intros; linarith)
    · obtain ⟨ha, hb⟩ := h6
      refine ⟨?_, ?_, ?_, ?_, ?_, ?_, ?_⟩ <;> simp <;>
        first | (constructor <;> linarith) | linarith | (intros; linarith)
    · push_neg at h1 h2 h3 h4 h5 h6
      have hq : q ≤ 0 := by
        by_contra hq
        push_neg at hq
        exact absurd (h2 (h3 (h4 (h5 (h6 hq))))) (not_lt.mpr h1)
      refine ⟨?_, ?_, ?_, ?_, ?_, ?_, ?_⟩ <;> simp <;> intros <;> linarith
  · rcases lt_or_le 105 q with h1 | h1
    · refine ⟨1, ?_, by norm_num⟩
      unfold egfr_to_ranges
      rw [if_pos h1]
    rcases lt_or_le 90 q with h2 | h2
    · refine ⟨2, ?_, by norm_num⟩
      unfold egfr_to_ranges
      rw [if_neg (by linarith), if_pos ⟨h2, h1⟩]
    rcases lt_or_le 75 q with h3 | h3
    · refine ⟨3, ?_, by norm_num⟩
      unfold egfr_to_ranges
      rw [if_neg (by linarith), if_neg (by rintro ⟨a, b⟩; linarith), if_pos ⟨h3, h2⟩]
    rcases lt_or_le 60 q with h4 | h4
    · refine ⟨4, ?_, by norm_num⟩
      unfold egfr_to_ranges
      rw [if_neg (by linarith), if_neg (by rintro ⟨a, b⟩; linarith),
        if_neg (by rintro ⟨a, b⟩; linarith), if_pos ⟨h4, h3⟩]
    rcases lt_or_le 45 q with h5 | h5
    · refine ⟨5, ?_, by norm_num⟩
      unfold egfr_to_ranges
      rw [if_neg (by linarith), if_neg (by rintro ⟨a, b⟩; linarith),
        if_neg (by rintro ⟨a, b⟩; linarith), if_neg (by rintro ⟨a, b⟩; linarith),
        if_pos ⟨h5, h4⟩]
    rcases lt_or_le 30 q with h6 | h6
    · refine ⟨6, ?_, by norm_num⟩
      unfold egfr_to_ranges
      rw [if_neg (by linarith), if_neg (by rintro ⟨a, b⟩; linarith),
        if_neg (by rintro ⟨a, b⟩; linarith), if_neg (by rintro ⟨a, b⟩; linarith),
        if_neg (by rintro ⟨a, b⟩; linarith), if_pos ⟨h6, h5⟩]
    rcases lt_or_le 15 q with h7 | h7
    · refine ⟨7, ?_, by norm_num⟩
      unfold egfr_to_ranges
      rw [if_neg (by linarith), if_neg (by rintro ⟨a, b⟩; linarith),
        if_neg (by rintro ⟨a, b⟩; linarith), if_neg (by rintro ⟨a, b⟩; linarith),
        if_neg (by rintro ⟨a, b⟩; linarith), if_neg (by rintro ⟨a, b⟩; linarith),
        if_pos ⟨h7, h6⟩]
    · refine ⟨8, ?_, by norm_num⟩
      unfold egfr_to_ranges
      rw [if_neg (by linarith), if_neg (by rintro ⟨a, b⟩; linarith),
        if_neg (by rintro ⟨a, b⟩; linarith), if_neg (by rintro ⟨a, b⟩; linarith),
        if_neg (by rintro ⟨a, b⟩; linarith), if_neg (by rintro ⟨a, b⟩; linarith),
        if_neg (by rintro ⟨a, b⟩; linarith), if_pos ⟨hq, h7⟩]
  · unfold egfr_to_ranges
    rw [if_neg (by linarith), if_neg (by rintro ⟨a, b⟩; linarith),
      if_neg (by rintro ⟨a, b⟩; linarith), if_neg (by rintro ⟨a, b⟩; linarith),
      if_neg (by rintro ⟨a, b⟩; linarith), if_neg (by rintro ⟨a, b⟩; linarith),
      if_neg (by rintro ⟨a, b⟩; linarith), if_neg (by rintro ⟨a, b⟩; linarith),
      if_pos hq]

/-- Witness for `C5_stage_range_partition` at eGFR = 50 (stage G3a region). -/
theorem C5_stage_range_partition_witness :
    ∃ n, egfr_to_ranges 50 = some n ∧ 1 ≤ n ∧ n ≤ 8 :=
  C5_stage_range_partition.2.1 50 (by norm_num)

end Formulas

namespace Interv

/-- Concrete 5-row frame at a single stage with diagnosed fraction 3/5. -/
def dfC3 : List IRow :=
  [⟨1, 0, "G3b"⟩, ⟨1, 0, "G3b"⟩, ⟨1, 0, "G3b"⟩, ⟨0, 0, "G3b"⟩, ⟨0, 0, "G3b"⟩]

/-- C3 counterexample: with already-intervened fraction f = 3/5 exceeding the
target p = 1/2, the conditional probability is negative (−1/4), yet the
common-random-numbers sampling path returns successfully — every draw in
[0,1] is compared against the negative threshold and yields 0, silently
overwriting the indicator column with zeros instead of raising an error. -/
theorem C3_negative_prob_counterexample :
    conditional_prob (1/2) (frac_already_intervened dfC3 "diag") = -(1/4) ∧
    sample_interventions dfC3 "diag" (1/2) [(1:ℚ)/2, 0, 1, 3/10, 9/10]
      = Except.ok
        [⟨0, 0, "G3b"⟩, ⟨0, 0, "G3b"⟩, ⟨0, 0, "G3b"⟩, ⟨0, 0, "G3b"⟩, ⟨0, 0, "G3b"⟩] := by
  constructor
  · simp +decide [conditional_prob, frac_already_intervened, dfC3, indicOf, List.filter]
    norm_num
  · simp +decide [sample_interventions, conditional_prob, frac_already_intervened,
      dfC3, indicOf, setIndic, List.filter]
    norm_num

/-- C3 (amended): `conditional_prob` computes `(p − f)/(1 − f)` (so 0.375 at
(0.5, 0.2) and 0 at (0.5, 0.5)); when `f > p_target` it returns a negative
value with no guard, and `sample_interventions` on the common-random-numbers
path returns successfully with an all-zero indicator column (no nonnegative
draw is ≤ a negative threshold) — no error is raised on that path. -/
theorem C3_conditional_prob_spec :
    conditional_prob (1/2) (1/5) = 3/8 ∧
    conditional_prob (1/2) (1/2) = 0 ∧
    (∀ p f : ℚ, conditional_prob p f = (p - f) / (1 - f)) ∧
    (∀ (df : List IRow) (ip : ℚ) (rn : List ℚ),
      (df.map (·.stage_diag)).dedup.length = 1 →
      conditional_prob ip (frac_already_intervened df "diag") < 0 →
      (∀ u ∈ rn, 0 ≤ u) →
      ∃ out, sample_interventions df "diag" ip rn = Except.ok out ∧
        ∀ r ∈ out, r.diag = 0) := by
  refine ⟨by norm_num [conditional_prob], by norm_num [conditional_prob],
    fun p f => rfl, fun df ip rn hstage hneg hrn => ?_⟩
  refine ⟨(df.zip (rn.map (fun u =>
      if u ≤ conditional_prob ip (frac_already_intervened df "diag") then 1 else 0))).map
      (fun rs => setIndic "diag" rs.2 rs.1), ?_, ?_⟩
  · unfold sample_interventions
    rw [if_neg (by simp [hstage])]
    simp
  · intro r hr
    simp only [List.mem_map] at hr
    obtain ⟨⟨r0, v⟩, hmem, rfl⟩ := hr
    have hv : v = 0 := by
      have hmem2 := (List.of_mem_zip hmem).2
      simp only [List.mem_map] at hmem2
      obtain ⟨u, hu, rfl⟩ := hmem2
      have h0 : ¬ (u ≤ conditional_prob ip (frac_already_intervened df "diag")) :=
        fun hle => absurd (lt_of_le_of_lt hle hneg) (not_lt.mpr (hrn u hu))
      simp [h0]
    subst hv
    simp [setIndic]

/-- Witness for `C3_conditional_prob_spec`: apply the negative-probability
clause to the concrete frame `dfC3`. -/
theorem C3_conditional_prob_spec_witness :
    ∃ out, sample_interventions dfC3 "diag" (1/2) [(1:ℚ)/2] = Except.ok out ∧
      ∀ r ∈ out, r.diag = 0 :=
  C3_conditional_prob_spec.2.2.2 dfC3 (1/2) [(1:ℚ)/2] (by simp +decide [dfC3])
    (by simp +decide [conditional_prob, frac_already_intervened, dfC3, indicOf, List.filter]
        norm_num)
    (by intro u hu; simp at hu; simp [hu])

end Interv

namespace EgfrModel

/-- A trajectory row (one record of the pandas frame indexed by (`pid`,
`age`)): the eGFR value, the decline slope valid from this row forward, the
six binary indicator columns, demographics, and the transient `stage_diag`
column (a mix of stage strings and 0/NaN in the source, embedded as
`Option String`). -/
structure Row where
  pid : ℕ
  age : ℚ
  egfr : ℚ
  slope : ℚ
  dm : ℕ
  ht : ℕ
  g3 : ℕ
  diag : ℕ
  nephr : ℕ
  death : ℕ
  sex : String
  race : String
  stage_diag : Option String
  deriving DecidableEq, Repr

/-- The per-interval rounded eGFR decrements of `get_decline`:
`degfr = (dt * slope).round(2)` where `dt` is the age gap to the next row of
the same individual. -/
def degfrs : List Row → List ℚ
  | r :: r' :: rest => round2q ((r'.age - r.age) * r.slope) :: degfrs (r' :: rest)
  | _ => []

/-- Recursive core of `get_decline`: each row's eGFR is the initial eGFR
minus the accumulated rounded decrements of the preceding intervals
(`degfr_cum`, shifted by one interval as in the source). -/
def declineFrom (init : ℚ) : ℚ → List Row → List Row
  | _, [] => []
  | acc, [r] => [{ r with egfr := init - acc }]
  | acc, r :: r' :: rest =>
      { r with egfr := init - acc } ::
        declineFrom init (acc + round2q ((r'.age - r.age) * r.slope)) (r' :: rest)

/-- Embedding of `get_decline` (egfr_model.py) for one individual's rows
ordered by age (the pandas version applies exactly this per `pid` group:
`init_egfr` is the first row's eGFR, `dt` the age gap to the next row,
`degfr = (dt*slope).round(2)`, `degfr_cum` its shifted cumulative sum, and
`egfr = init_egfr - degfr_cum`). -/
def get_decline (rows : List Row) : List Row :=
  match rows with
  | [] => []
  | r :: _ => declineFrom r.egfr 0 rows

theorem declineFrom_length (init : ℚ) :
    ∀ (rows : List Row) (acc : ℚ), (declineFrom init acc rows).length = rows.length
  | [], _ => rfl
  | [_], _ => rfl
  | r :: r' :: rest, acc => by
      simp only [declineFrom]
      simp only [List.length_cons]
      rw [declineFrom_length init (r' :: rest)]
      simp

theorem declineFrom_head (init acc : ℚ) (r : Row) (rest : List Row) :
    (declineFrom init acc (r :: rest)).head? = some { r with egfr := init - acc } := by
  cases rest <;> rfl

theorem chain_declineFrom (init : ℚ) :
    ∀ (rows : List Row) (acc : ℚ),
      List.Chain' (fun a b => b.egfr = a.egfr - round2q ((b.age - a.age) * a.slope))
        (declineFrom init acc rows)
  | [], _ => by simp [declineFrom]
  | [r], _ => by simp [declineFrom]
  | r :: r' :: rest, acc => by
      simp only [declineFrom]
      refine List.chain'_cons'.mpr ⟨?_, chain_declineFrom init (r' :: rest) _⟩
      intro b hb
      rw [declineFrom_head] at hb
      simp only [Option.mem_def, Option.some.injEq] at hb
      subst hb
      simp
      ring

theorem declineFrom_get (init : ℚ) :
    ∀ (rows : List Row) (acc : ℚ) (i : ℕ) (h : i < (declineFrom init acc rows).length),
      ((declineFrom init acc rows).get ⟨i, h⟩).egfr = init - (acc + ((degfrs rows).take i).sum)
  | [], _, i, h => by simp [declineFrom] at h
  | [r], acc, 0, h => by simp [declineFrom, degfrs]
  | [r], acc, i + 1, h => by simp [declineFrom] at h
  | r :: r' :: rest, acc, 0, h => by
      simp [declineFrom, degfrs]
  | r :: r' :: rest, acc, i + 1, h => by
      simp only [declineFrom] at h ⊢
      simp only [List.get_cons_succ]
      rw [declineFrom_get init (r' :: rest) _ i (by simpa using h)]
      simp only [degfrs, List.take_succ_cons, List.sum_cons]
      ring

/-- Indicator/identity columns are untouched by `get_decline`: erasing the
eGFR column commutes with it. -/
def eraseEgfr (r : Row) : Row := { r with egfr := 0 }

theorem declineFrom_map_eraseEgfr (init : ℚ) :
    ∀ (rows : List Row) (acc : ℚ),
      (declineFrom init acc rows).map eraseEgfr = rows.map eraseEgfr
  | [], _ => rfl
  | [r], _ => by simp [declineFrom, eraseEgfr]
  | r :: r' :: rest, acc => by
      simp only [declineFrom]
      simp only [List.map_cons]
      rw [declineFrom_map_eraseEgfr init (r' :: rest)]
      simp [eraseEgfr]

/-- C2: for every trajectory produced by `get_decline` (one individual,
rows ordered by age), (i) consecutive rows satisfy the exact recurrence
`egfr_next = egfr_prev - round2((age_next - age_prev) * slope_prev)`; (ii)
hence each consecutive pair satisfies the claim's rounding-tolerance form
`|egfr_next - (egfr_prev - slope_prev * (age_next - age_prev))| ≤ 1/200 <
0.01`; and (iii) each row's eGFR equals the individual's initial eGFR minus
the cumulative sum of the rounded (age-gap x slope) products over the
preceding intervals. -/
theorem C2_get_decline_linear (r0 : Row) (rest : List Row) :
    List.Chain' (fun a b => b.egfr = a.egfr - round2q ((b.age - a.age) * a.slope))
      (get_decline (r0 :: rest)) ∧
    List.Chain' (fun a b => |b.egfr - (a.egfr - a.slope * (b.age - a.age))| ≤ 1 / 200)
      (get_decline (r0 :: rest)) ∧
    (∀ (i : ℕ) (h : i < (get_decline (r0 :: rest)).length),
      ((get_decline (r0 :: rest)).get ⟨i, h⟩).egfr
        = r0.egfr - ((degfrs (r0 :: rest)).take i).sum) := by
  refine ⟨chain_declineFrom r0.egfr (r0 :: rest) 0, ?_, ?_⟩
  · refine List.Chain'.imp ?_ (chain_declineFrom r0.egfr (r0 :: rest) 0)
    intro a b hab
    rw [hab]
    have hcl := round2q_close ((b.age - a.age) * a.slope)
    rw [abs_sub_comm] at hcl
    have heq : a.egfr - round2q ((b.age - a.age) * a.slope) - (a.egfr - a.slope * (b.age - a.age))
        = (b.age - a.age) * a.slope - round2q ((b.age - a.age) * a.slope) := by ring
    rw [heq]
    exact hcl
  · intro i h
    have h2 : i < (declineFrom r0.egfr 0 (r0 :: rest)).length := h
    have h3 := declineFrom_get r0.egfr (r0 :: rest) 0 i h2
    rw [zero_add] at h3
    exact h3

/-- Witness for `C2_get_decline_linear`: a two-row trajectory declining at
slope 1 from eGFR 100 at age 30 to age 40; the second row's eGFR is
100 − 10. -/
theorem C2_get_decline_linear_witness :
    ∀ (h : 1 < (get_decline
      [⟨0, 30, 100, 1, 0, 0, 0, 0, 0, 0, "F", "B", none⟩,
       ⟨0, 40, 0, 1, 0, 0, 0, 0, 0, 0, "F", "B", none⟩]).length),
    ((get_decline
      [⟨0, 30, 100, 1, 0, 0, 0, 0, 0, 0, "F", "B", none⟩,
       ⟨0, 40, 0, 1, 0, 0, 0, 0, 0, 0, "F", "B", none⟩]).get ⟨1, h⟩).egfr
      = 100 - ((degfrs
      [⟨0, 30, 100, 1, 0, 0, 0, 0, 0, 0, "F", "B", none⟩,
       ⟨0, 40, 0, 1, 0, 0, 0, 0, 0, 0, "F", "B", none⟩]).take 1).sum := fun h =>
  (C2_get_decline_linear ⟨0, 30, 100, 1, 0, 0, 0, 0, 0, 0, "F", "B", none⟩
    [⟨0, 40, 0, 1, 0, 0, 0, 0, 0, 0, "F", "B", none⟩]).2.2 1 h

end EgfrModel

namespace EgfrModel

/-- Embedding of `entries_at_cutoffs` (egfr_model.py): the rows whose eGFR,
rounded to 2 decimals, equals one of the cutoff values. -/
def entries_at_cutoffs (df : List Row) (cutoffs : List ℚ) : List Row :=
  df.filter (fun r => round2q r.egfr ∈ cutoffs)

/-- The distinct individual ids appearing in a frame. -/
def pidsOf (df : List Row) : List ℕ := (df.map (·.pid)).dedup

/-- `groupby("pid").last()`: the last row of the frame belonging to `p`. -/
def lastRowOf (df : List Row) (p : ℕ) : Option Row := (df.filter (·.pid = p)).getLast?

/-- The ids to ignore in `identify_age_at_cutoff`: individuals who already
have an entry exactly at the cutoff. -/
def ignoreOf (df : List Row) (cutoff : ℚ) : List ℕ :=
  (entries_at_cutoffs df [cutoff]).map (·.pid)

/-- `df.query("egfr > @cutoff & pid not in @ignore_indices")`. -/
def overOf (df : List Row) (cutoff : ℚ) : List Row :=
  df.filter (fun r => cutoff < r.egfr ∧ r.pid ∉ ignoreOf df cutoff)

/-- The per-individual last rows above the cutoff. -/
def lastsOf (df : List Row) (cutoff : ℚ) : List Row :=
  (pidsOf (overOf df cutoff)).filterMap (lastRowOf (overOf df cutoff))

/-- The interpolated crossing row: `age = (age + (egfr - cutoff)/slope)
.round(2)` computed from the original eGFR, then `egfr` set to the cutoff
(the `assign` in the source computes `age` before overwriting `egfr`). -/
def interpRow (cutoff : ℚ) (r : Row) : Row :=
  { r with age := round2q (r.age + (r.egfr - cutoff) / r.slope), egfr := cutoff }

/-- Embedding of `identify_age_at_cutoff` (egfr_model.py): individuals with
an entry exactly at the cutoff are ignored; per remaining individual the last
row with `egfr > cutoff` is taken (`groupby("pid").last()`), rows with
`death == 1` are dropped, the crossing age is interpolated, rows with
interpolated `age > 101` are dropped (`query("age <= 101")`), and finally any
result whose (`pid`,`age`) key coincides with an existing row of `df` is
replaced by that existing row with only `egfr` overwritten to the cutoff. -/
def identify_age_at_cutoff (df : List Row) (cutoff : ℚ) : List Row :=
  ((((lastsOf df cutoff).filter (fun r => r.death ≠ 1)).map (interpRow cutoff)).filter
    (fun r => r.age ≤ 101)).map
    (fun r =>
      match df.find? (fun s => s.pid = r.pid ∧ s.age = r.age) with
      | some s => { s with egfr := cutoff }
      | none => r)

theorem lastRowOf_pid {df : List Row} {p : ℕ} {r : Row}
    (h : lastRowOf df p = some r) : r.pid = p ∧ r ∈ df := by
  have hmem := List.mem_of_mem_getLast? h
  have := List.mem_filter.mp hmem
  refine ⟨by simpa using this.2, this.1⟩

theorem mem_lastsOf {df : List Row} {cutoff : ℚ} {r : Row}
    (h : lastRowOf (overOf df cutoff) r.pid = some r) : r ∈ lastsOf df cutoff := by
  have hpid := lastRowOf_pid h
  have hover : r ∈ overOf df cutoff := hpid.2
  refine List.mem_filterMap.mpr ⟨r.pid, ?_, h⟩
  unfold pidsOf
  rw [List.mem_dedup]
  exact List.mem_map.mpr ⟨r, hover, rfl⟩

end EgfrModel

namespace EgfrModel

/-- C1 (amended): for `identify_age_at_cutoff`, (i) every returned row has
age ≤ 101; (ii) for an individual whose last row above the cutoff is `r`
(not ignored as already-at-cutoff, since `overOf` excludes those ids), who
has not died (`death ≠ 1`), and whose interpolated crossing age
`(age + (egfr - cutoff)/slope).round(2)` is ≤ 101, the returned frame
contains the interpolated row with `egfr` set to the cutoff — except that if
the interpolated (`pid`,`age`) key coincides with an existing row of `df`,
that existing row is kept with only `egfr` overwritten to the cutoff; (iii)
individuals with an entry exactly at the cutoff are excluded: no returned
row carries their id.  (Interpolated ages above 101 are dropped, not clamped
— see the counterexample.) -/
theorem C1_identify_age_at_cutoff_spec (df : List Row) (cutoff : ℚ) :
    (∀ r ∈ identify_age_at_cutoff df cutoff, r.age ≤ 101) ∧
    (∀ r : Row, lastRowOf (overOf df cutoff) r.pid = some r → r.death ≠ 1 →
      (interpRow cutoff r).age ≤ 101 →
      (match df.find? (fun s =>
          s.pid = (interpRow cutoff r).pid ∧ s.age = (interpRow cutoff r).age) with
       | some s => { s with egfr := cutoff }
       | none => interpRow cutoff r) ∈ identify_age_at_cutoff df cutoff) ∧
    (∀ p ∈ ignoreOf df cutoff, ∀ r ∈ identify_age_at_cutoff df cutoff, r.pid ≠ p) := by
  refine ⟨?_, ?_, ?_⟩
  · intro r hr
    unfold identify_age_at_cutoff at hr
    simp only [List.mem_map] at hr
    obtain ⟨x, hx, rfl⟩ := hr
    have hxage : x.age ≤ 101 := by simpa using (List.mem_filter.mp hx).2
    split
    · next s hfind =>
        have hs := List.find?_some hfind
        simp only [Bool.and_eq_true, decide_eq_true_eq] at hs
        show s.age ≤ 101
        rw [hs.2]
        exact hxage
    · next hfind => exact hxage
  · intro r hlast hdeath hage
    have hmem1 : r ∈ lastsOf df cutoff := mem_lastsOf hlast
    have hmem2 : r ∈ (lastsOf df cutoff).filter (fun r => r.death ≠ 1) :=
      List.mem_filter.mpr ⟨hmem1, by simpa using hdeath⟩
    have hmem3 : interpRow cutoff r
        ∈ ((lastsOf df cutoff).filter (fun r => r.death ≠ 1)).map (interpRow cutoff) :=
      List.mem_map.mpr ⟨r, hmem2, rfl⟩
    have hmem4 : interpRow cutoff r
        ∈ (((lastsOf df cutoff).filter (fun r => r.death ≠ 1)).map (interpRow cutoff)).filter
          (fun r => r.age ≤ 101) :=
      List.mem_filter.mpr ⟨hmem3, by simpa using hage⟩
    exact List.mem_map.mpr ⟨interpRow cutoff r, hmem4, rfl⟩
  · intro p hp r hr
    unfold identify_age_at_cutoff at hr
    simp only [List.mem_map] at hr
    obtain ⟨x, hx, rfl⟩ := hr
    have hx2 := (List.mem_filter.mp hx).1
    simp only [List.mem_map] at hx2
    obtain ⟨y, hy, rfl⟩ := hx2
    have hy2 : y ∈ lastsOf df cutoff := (List.mem_filter.mp hy).1
    have hyover : y ∈ overOf df cutoff := by
      obtain ⟨a, _, ha⟩ := List.mem_filterMap.mp hy2
      exact (lastRowOf_pid ha).2
    have hnotin : y.pid ∉ ignoreOf df cutoff := by
      have hcond := (List.mem_filter.mp hyover).2
      simp only [decide_eq_true_eq] at hcond
      exact hcond.2
    have hne : y.pid ≠ p := fun hcontra => hnotin (hcontra ▸ hp)
    split
    · next s hfind =>
        have hs := List.find?_some hfind
        simp only [Bool.and_eq_true, decide_eq_true_eq] at hs
        show s.pid ≠ p
        rw [hs.1]
        simpa [interpRow] using hne
    · next hfind =>
        show (interpRow cutoff y).pid ≠ p
        simpa [interpRow] using hne

end EgfrModel

namespace EgfrModel

/-- A single-row frame: one individual, alive, eGFR 50 at age 100, slope 1. -/
def rowC1 : Row := ⟨0, 100, 50, 1, 0, 0, 0, 0, 0, 0, "F", "B", none⟩

/-- C1 counterexample: `rowC1`'s individual has not died and has no entry at
the cutoff 15, and the interpolated crossing age is 135, yet
`identify_age_at_cutoff` returns NO row for them: interpolated ages above
the horizon are filtered out by `query("age <= 101")`, not clamped to the
horizon as the claim (following the spec) states. -/
theorem C1_no_clamp_counterexample :
    rowC1.death ≠ 1 ∧
    entries_at_cutoffs [rowC1] [15] = [] ∧
    round2q (rowC1.age + (rowC1.egfr - 15) / rowC1.slope) = 135 ∧
    identify_age_at_cutoff [rowC1] 15 = [] := by
  have h50 : round2q 50 = 50 := by norm_num [round2q, round_eq]
  have h135 : round2q (100 + (50 - 15) / 1) = 135 := by norm_num [round2q, round_eq]
  have h135b : round2q 135 = 135 := by norm_num [round2q, round_eq]
  refine ⟨by simp [rowC1], ?_, by simpa [rowC1] using h135, ?_⟩
  · simp [entries_at_cutoffs, rowC1, h50]
  · simp [identify_age_at_cutoff, lastsOf, pidsOf, lastRowOf, overOf, ignoreOf,
      entries_at_cutoffs, interpRow, rowC1, h50, h135]
    norm_num [h135b]

/-- A single-row frame used as witness input: alive, eGFR 50 at age 50. -/
def rowC1w : Row := ⟨0, 50, 50, 1, 0, 0, 0, 0, 0, 0, "F", "B", none⟩

/-- Witness for `C1_identify_age_at_cutoff_spec`: the production clause
applied to `rowC1w` with cutoff 45 (interpolated age 55 ≤ 101). -/
theorem C1_identify_age_at_cutoff_spec_witness :
    (match [rowC1w].find? (fun s =>
        s.pid = (interpRow 45 rowC1w).pid ∧ s.age = (interpRow 45 rowC1w).age) with
     | some s => { s with egfr := 45 }
     | none => interpRow 45 rowC1w) ∈ identify_age_at_cutoff [rowC1w] 45 := by
  have h50 : round2q 50 = 50 := by norm_num [round2q, round_eq]
  have h55 : round2q (50 + (50 - 45) / 1) = 55 := by norm_num [round2q, round_eq]
  have h55b : round2q 55 = 55 := by norm_num [round2q, round_eq]
  refine (C1_identify_age_at_cutoff_spec [rowC1w] 45).2.1 rowC1w ?_ ?_ ?_
  · simp [lastRowOf, overOf, ignoreOf, entries_at_cutoffs, rowC1w, h50]
    norm_num
  · simp [rowC1w]
  · norm_num [interpRow, rowC1w, round2q, round_eq]

end EgfrModel

namespace CkdEpi

inductive Sex | M | F deriving DecidableEq, Repr

inductive Race | B | NB deriving DecidableEq, Repr

/-- The two supported CKD-EPI creatinine formulas ("09" and "21"). -/
inductive Formula | y09 | y21 deriving DecidableEq, Repr

/-- `CKD_EPI_params[formula]["kappa"][sex]` (egfr_formulas.py). -/
def kappa : Formula → Sex → ℝ
  | _, .F => 0.7
  | _, .M => 0.9

/-- `CKD_EPI_params[formula]["alpha"][sex]`. -/
def alpha : Formula → Sex → ℝ
  | .y21, .F => -0.241
  | .y21, .M => -0.302
  | .y09, .F => -0.329
  | .y09, .M => -0.411

/-- `CKD_EPI_params[formula]["sex_adj"][sex]`. -/
def sex_adj : Formula → Sex → ℝ
  | .y21, .F => 1.012
  | .y21, .M => 1
  | .y09, .F => 1.018
  | .y09, .M => 1

/-- `CKD_EPI_params[formula]["race_adj"][race]`. -/
def race_adj : Formula → Race → ℝ
  | .y21, _ => 1
  | .y09, .B => 1.159
  | .y09, .NB => 1

/-- `CKD_EPI_params[formula]["max_exp"]`. -/
def max_exp : Formula → ℝ
  | .y21 => -1.2
  | .y09 => -1.209

/-- `CKD_EPI_params[formula]["age_base"]`. -/
def age_base : Formula → ℝ
  | .y21 => 0.9938
  | .y09 => 0.993

/-- `CKD_EPI_params[formula]["beta"]`. -/
def beta : Formula → ℝ
  | .y21 => 142
  | .y09 => 141

/-- Embedding of `CKD_EPI` (egfr_formulas.py): the piecewise power law
`beta * min(scr/kappa,1)^alpha * max(scr/kappa,1)^max_exp * age_base^age *
sex_adj * race_adj`, with real powers embedded as `Real.rpow`. -/
noncomputable def CKD_EPI (scr : ℝ) (sex : Sex) (age : ℝ) (race : Race)
    (formula : Formula) : ℝ :=
  beta formula
    * min (scr / kappa formula sex) 1 ^ alpha formula sex
    * max (scr / kappa formula sex) 1 ^ max_exp formula
    * age_base formula ^ age
    * sex_adj formula sex
    * race_adj formula race

open Classical in
/-- Embedding of `creat_from_eGFR` (egfr_formulas.py): inverts the power law
branchwise; `a == 0` returns 0 (degenerate case), `a >= 1` inverts the
`min`-branch via the exponent `1/alpha`, otherwise the `max`-branch via
`1/max_exp`. -/
noncomputable def creat_from_eGFR (egfr : ℝ) (sex : Sex) (age : ℝ) (race : Race)
    (formula : Formula) : ℝ :=
  let a := egfr / (beta formula * age_base formula ^ age
    * sex_adj formula sex * race_adj formula race)
  if a = 0 then 0
  else if 1 ≤ a then a ^ (alpha formula sex)⁻¹ * kappa formula sex
  else a ^ (max_exp formula)⁻¹ * kappa formula sex

open Classical in
/-- Embedding of `eGFR_2021_to_2009` (egfr_formulas.py). -/
noncomputable def eGFR_2021_to_2009 (egfr_2021 : ℝ) (sex : Sex) (age : ℝ)
    (race : Race) : Option ℝ :=
  if egfr_2021 = 0 then some 0
  else if egfr_2021 < 0 then none
  else
    let SeCr := creat_from_eGFR egfr_2021 sex age race .y21
    if SeCr = 0 then some 0
    else some (CKD_EPI SeCr sex age race .y09)

open Classical in
/-- Embedding of `eGFR_2009_to_2021` (egfr_formulas.py). -/
noncomputable def eGFR_2009_to_2021 (egfr_2009 : ℝ) (sex : Sex) (age : ℝ)
    (race : Race) : Option ℝ :=
  if egfr_2009 = 0 then some 0
  else if egfr_2009 < 0 then none
  else
    let SeCr := creat_from_eGFR egfr_2009 sex age race .y09
    if SeCr = 0 then some 0
    else some (CKD_EPI SeCr sex age race .y21)

theorem kappa_pos (f : Formula) (s : Sex) : 0 < kappa f s := by
  cases f <;> cases s <;> norm_num [kappa]

theorem alpha_neg (f : Formula) (s : Sex) : alpha f s < 0 := by
  cases f <;> cases s <;> norm_num [alpha]

theorem sex_adj_pos (f : Formula) (s : Sex) : 0 < sex_adj f s := by
  cases f <;> cases s <;> norm_num [sex_adj]

theorem race_adj_pos (f : Formula) (r : Race) : 0 < race_adj f r := by
  cases f <;> cases r <;> norm_num [race_adj]

theorem max_exp_neg (f : Formula) : max_exp f < 0 := by
  cases f <;> norm_num [max_exp]

theorem age_base_pos (f : Formula) : 0 < age_base f := by
  cases f <;> norm_num [age_base]

theorem beta_pos (f : Formula) : 0 < beta f := by
  cases f <;> norm_num [beta]

theorem denom_pos (f : Formula) (s : Sex) (r : Race) (age : ℝ) :
    0 < beta f * age_base f ^ age * sex_adj f s * race_adj f r :=
  mul_pos (mul_pos (mul_pos (beta_pos f)
    (Real.rpow_pos_of_pos (age_base_pos f) age)) (sex_adj_pos f s)) (race_adj_pos f r)

end CkdEpi

namespace CkdEpi

/-- Branchwise inversion core: plugging the branch-inverted creatinine back
into the two power-law factors recovers `a`. -/
theorem min_max_pow (κ α m a : ℝ) (hκ : 0 < κ) (hα : α < 0) (hm : m < 0)
    (ha : 0 < a) :
    min ((if 1 ≤ a then a ^ α⁻¹ * κ else a ^ m⁻¹ * κ) / κ) 1 ^ α
      * max ((if 1 ≤ a then a ^ α⁻¹ * κ else a ^ m⁻¹ * κ) / κ) 1 ^ m = a := by
  have hκ0 : κ ≠ 0 := ne_of_gt hκ
  rcases le_or_lt 1 a with h1 | h1
  · rw [if_pos h1, mul_div_cancel_right₀ _ hκ0]
    have hle : a ^ α⁻¹ ≤ 1 :=
      Real.rpow_le_one_of_one_le_of_nonpos h1 (inv_nonpos.mpr hα.le)
    rw [min_eq_left hle, max_eq_right hle, Real.rpow_inv_rpow ha.le hα.ne,
      Real.one_rpow, mul_one]
  · rw [if_neg (not_le.mpr h1), mul_div_cancel_right₀ _ hκ0]
    have hge : 1 ≤ a ^ m⁻¹ :=
      Real.one_le_rpow_of_pos_of_le_one_of_nonpos ha h1.le (inv_nonpos.mpr hm.le)
    rw [min_eq_right hge, max_eq_left hge, Real.rpow_inv_rpow ha.le hm.ne,
      Real.one_rpow, one_mul]

theorem CKD_EPI_creat_from_eGFR (egfr : ℝ) (h : 0 < egfr) (s : Sex) (age : ℝ)
    (r : Race) (f : Formula) :
    CKD_EPI (creat_from_eGFR egfr s age r f) s age r f = egfr := by
  have hb : 0 < beta f * age_base f ^ age * sex_adj f s * race_adj f r :=
    denom_pos f s r age
  have ha : 0 < egfr / (beta f * age_base f ^ age * sex_adj f s * race_adj f r) :=
    div_pos h hb
  have hmm := min_max_pow (kappa f s) (alpha f s) (max_exp f)
    (egfr / (beta f * age_base f ^ age * sex_adj f s * race_adj f r))
    (kappa_pos f s) (alpha_neg f s) (max_exp_neg f) ha
  have hmm2 := (eq_div_iff (ne_of_gt hb)).mp hmm
  simp only [creat_from_eGFR]
  rw [if_neg (ne_of_gt ha)]
  unfold CKD_EPI
  linear_combination hmm2

theorem creat_from_eGFR_pos (egfr : ℝ) (h : 0 < egfr) (s : Sex) (age : ℝ)
    (r : Race) (f : Formula) : 0 < creat_from_eGFR egfr s age r f := by
  have hb : 0 < beta f * age_base f ^ age * sex_adj f s * race_adj f r :=
    denom_pos f s r age
  have ha : 0 < egfr / (beta f * age_base f ^ age * sex_adj f s * race_adj f r) :=
    div_pos h hb
  simp only [creat_from_eGFR]
  rw [if_neg (ne_of_gt ha)]
  rcases le_or_lt 1 (egfr / (beta f * age_base f ^ age * sex_adj f s * race_adj f r))
    with h1 | h1
  · rw [if_pos h1]
    exact mul_pos (Real.rpow_pos_of_pos ha _) (kappa_pos f s)
  · rw [if_neg (not_le.mpr h1)]
    exact mul_pos (Real.rpow_pos_of_pos ha _) (kappa_pos f s)

theorem CKD_EPI_pos (scr : ℝ) (h : 0 < scr) (s : Sex) (age : ℝ) (r : Race)
    (f : Formula) : 0 < CKD_EPI scr s age r f := by
  unfold CKD_EPI
  have h1 : 0 < min (scr / kappa f s) 1 := lt_min (div_pos h (kappa_pos f s)) one_pos
  have h2 : 0 < max (scr / kappa f s) 1 := lt_of_lt_of_le one_pos (le_max_right _ _)
  exact mul_pos (mul_pos (mul_pos (mul_pos (mul_pos (beta_pos f)
    (Real.rpow_pos_of_pos h1 _)) (Real.rpow_pos_of_pos h2 _))
    (Real.rpow_pos_of_pos (age_base_pos f) _)) (sex_adj_pos f s)) (race_adj_pos f r)

theorem creat_from_eGFR_CKD_EPI (scr : ℝ) (h : 0 < scr) (s : Sex) (age : ℝ)
    (r : Race) (f : Formula) :
    creat_from_eGFR (CKD_EPI scr s age r f) s age r f = scr := by
  have hb : 0 < beta f * age_base f ^ age * sex_adj f s * race_adj f r :=
    denom_pos f s r age
  have hκ : 0 < kappa f s := kappa_pos f s
  have hA : CKD_EPI scr s age r f
      / (beta f * age_base f ^ age * sex_adj f s * race_adj f r)
      = min (scr / kappa f s) 1 ^ alpha f s * max (scr / kappa f s) 1 ^ max_exp f := by
    unfold CKD_EPI
    field_simp
    ring
  simp only [creat_from_eGFR]
  rw [hA]
  have hsκ : 0 < scr / kappa f s := div_pos h hκ
  rcases le_or_lt (scr / kappa f s) 1 with h1 | h1
  · rw [max_eq_right h1, Real.one_rpow, mul_one, min_eq_left h1]
    have hge : 1 ≤ (scr / kappa f s) ^ alpha f s :=
      Real.one_le_rpow_of_pos_of_le_one_of_nonpos hsκ h1 (alpha_neg f s).le
    rw [if_neg (lt_of_lt_of_le zero_lt_one hge).ne', if_pos hge,
      Real.rpow_rpow_inv hsκ.le (alpha_neg f s).ne, div_mul_cancel₀ _ (ne_of_gt hκ)]
  · rw [min_eq_right h1.le, Real.one_rpow, one_mul, max_eq_left h1.le]
    have hlt : (scr / kappa f s) ^ max_exp f < 1 :=
      Real.rpow_lt_one_of_one_lt_of_neg h1 (max_exp_neg f)
    have hpos : 0 < (scr / kappa f s) ^ max_exp f := Real.rpow_pos_of_pos hsκ _
    rw [if_neg (ne_of_gt hpos), if_neg (not_le.mpr hlt),
      Real.rpow_rpow_inv hsκ.le (max_exp_neg f).ne, div_mul_cancel₀ _ (ne_of_gt hκ)]

/-- C6: for every eGFR > 0 and every (sex, age, race), translating from the
2021 formula to 2009 and back returns the original value exactly (hence
within any rounding tolerance): `creat_from_eGFR` is the exact inverse of
`CKD_EPI` on each branch of the piecewise power law. -/
theorem C6_round_trip (g : ℝ) (hg : 0 < g) (s : Sex) (age : ℝ) (r : Race) :
    ∃ g09, eGFR_2021_to_2009 g s age r = some g09 ∧ 0 < g09 ∧
      eGFR_2009_to_2021 g09 s age r = some g := by
  have hscr : 0 < creat_from_eGFR g s age r .y21 := creat_from_eGFR_pos g hg s age r .y21
  refine ⟨CKD_EPI (creat_from_eGFR g s age r .y21) s age r .y09, ?_, ?_, ?_⟩
  · simp only [eGFR_2021_to_2009]
    rw [if_neg (ne_of_gt hg), if_neg (not_lt.mpr hg.le), if_neg (ne_of_gt hscr)]
  · exact CKD_EPI_pos _ hscr s age r .y09
  · have h09 : 0 < CKD_EPI (creat_from_eGFR g s age r .y21) s age r .y09 :=
      CKD_EPI_pos _ hscr s age r .y09
    simp only [eGFR_2009_to_2021]
    rw [if_neg (ne_of_gt h09), if_neg (not_lt.mpr h09.le),
      creat_from_eGFR_CKD_EPI _ hscr s age r .y09, if_neg (ne_of_gt hscr),
      CKD_EPI_creat_from_eGFR g hg s age r .y21]

/-- Witness for `C6_round_trip`: eGFR 80 for a Black female aged 50. -/
theorem C6_round_trip_witness :
    ∃ g09, eGFR_2021_to_2009 80 Sex.F 50 Race.B = some g09 ∧ 0 < g09 ∧
      eGFR_2009_to_2021 g09 Sex.F 50 Race.B = some 80 :=
  C6_round_trip 80 (by norm_num) Sex.F 50 Race.B

end CkdEpi

namespace Survival

/-- Cumulative hazard over integer ages 0..j (`np.cumsum(hazards, axis=1)`
at column j, survival_helpers.py). -/
noncomputable def cum_hazard (h : ℕ → ℝ) (j : ℕ) : ℝ := ∑ i ∈ Finset.range (j + 1), h i

/-- Embedding of `survival_from_hazards` with `axis=1`
(survival_helpers.py): `exp(-cumsum(hazard))` per age column, with the
age-0 column forced to 1 (`surv.loc[:, 0] = 1`). -/
noncomputable def survival_from_hazards (h : ℕ → ℝ) (j : ℕ) : ℝ :=
  if j = 0 then 1 else Real.exp (-(cum_hazard h j))

/-- Embedding of `conditional_on_survival` with `axis=1` and
`distr_type="surv"` (survival_helpers.py): divide the survival function by
its value at `age_surv - 1` on columns `age_surv..100`, then force the
age-100 column to exactly 0 (`surv_t.loc[:, 100] = 0`). -/
noncomputable def conditional_on_survival (age_surv : ℕ) (surv : ℕ → ℝ) (j : ℕ) : ℝ :=
  if j = 100 then 0 else surv j / surv (age_surv - 1)

/-- Embedding of `sample_cat_vectorized` with `distr="cdf"`, `axis=1`
(survival_helpers.py) for one individual: `(cdf >= surv_sample)
.argmax(axis=1)` is the index of the first True column (0 if none — numpy's
`argmax` of an all-False row), and `cat_names[surv_age]` maps it back to the
column label, i.e. the age. -/
noncomputable def sample_cat (cdf : ℕ → ℝ) (cols : List ℕ) (u : ℝ) : ℕ :=
  match cols.find? (fun j => u ≤ cdf j) with
  | some j => j
  | none => cols.headD 0

/-- Embedding of `get_death_ages` (survival_helpers.py) for one individual
with externally supplied draws: survival from the hazard curve, conditioned
on survival to the cohort-entry age, converted to a CDF over age columns
`init_age..100`, inverted by `sample_cat`, plus the continuity offset. -/
noncomputable def get_death_ages (h : ℕ → ℝ) (init_age : ℕ)
    (sample_year sample_cont : ℝ) : ℝ :=
  let surv := survival_from_hazards h
  let surv_t := conditional_on_survival init_age surv
  let cdf := fun j => 1 - surv_t j
  (sample_cat cdf (List.range' init_age (101 - init_age)) sample_year : ℝ) + sample_cont

/-- The optional-draw wrapper: the source draws fresh uniform randomness
only when `sample_year`/`sample_cont` are `None`; `fresh_year`/`fresh_cont`
stand for the run's own random stream. -/
noncomputable def get_death_ages_opt (h : ℕ → ℝ) (init_age : ℕ)
    (sample_year sample_cont : Option ℝ) (fresh_year fresh_cont : ℝ) : ℝ :=
  get_death_ages h init_age (sample_year.getD fresh_year) (sample_cont.getD fresh_cont)

end Survival

namespace Survival

/-- C10: for every hazard curve (no sign assumption needed — in particular
any non-negative or all-zero hazards) and any draw `u ≤ 1`, the conditional
survival at age 100 is forced to exactly 0, so the CDF used for inversion is
exactly 1 at age 100; the crossing search therefore always finds a column
(an age `j` with `init_age ≤ j ≤ 100` and `cdf j ≥ u`), and the sampled
death age is `j + c`, at least `init_age` and strictly below the horizon 101
whenever the continuity offset satisfies `0 ≤ c < 1`. -/
theorem C10_death_sampling_total (h : ℕ → ℝ) (init_age : ℕ) (u c : ℝ)
    (hage1 : 1 ≤ init_age) (hage2 : init_age ≤ 100) (hu : u ≤ 1)
    (hc0 : 0 ≤ c) (hc1 : c < 1) :
    conditional_on_survival init_age (survival_from_hazards h) 100 = 0 ∧
    1 - conditional_on_survival init_age (survival_from_hazards h) 100 = 1 ∧
    (∃ j, (List.range' init_age (101 - init_age)).find?
        (fun j => u ≤ 1 - conditional_on_survival init_age (survival_from_hazards h) j)
        = some j ∧
      init_age ≤ j ∧ j ≤ 100 ∧
      u ≤ 1 - conditional_on_survival init_age (survival_from_hazards h) j) ∧
    (init_age : ℝ) ≤ get_death_ages h init_age u c ∧
    get_death_ages h init_age u c < 101 := by
  have hzero : conditional_on_survival init_age (survival_from_hazards h) 100 = 0 := by
    simp [conditional_on_survival]
  have hmem : (100 : ℕ) ∈ List.range' init_age (101 - init_age) := by
    rw [List.mem_range'_1]
    omega
  have hp100 : u ≤ 1 - conditional_on_survival init_age (survival_from_hazards h) 100 := by
    rw [hzero]
    linarith
  have hsome : ((List.range' init_age (101 - init_age)).find?
      (fun j => u ≤ 1 - conditional_on_survival init_age (survival_from_hazards h) j)).isSome := by
    rw [List.find?_isSome]
    exact ⟨100, hmem, by simpa using hp100⟩
  obtain ⟨j, hj⟩ := Option.isSome_iff_exists.mp hsome
  have hjp : u ≤ 1 - conditional_on_survival init_age (survival_from_hazards h) j := by
    simpa using List.find?_some hj
  have hjmem := List.mem_of_find?_eq_some hj
  rw [List.mem_range'_1] at hjmem
  have hsample : sample_cat
      (fun j => 1 - conditional_on_survival init_age (survival_from_hazards h) j)
      (List.range' init_age (101 - init_age)) u = j := by
    unfold sample_cat
    rw [hj]
  have hdeath : get_death_ages h init_age u c = (j : ℝ) + c := by
    simp only [get_death_ages]
    rw [hsample]
  refine ⟨hzero, by rw [hzero]; ring, ⟨j, hj, hjmem.1, by omega, hjp⟩, ?_, ?_⟩
  · rw [hdeath]
    have : (init_age : ℝ) ≤ (j : ℝ) := by exact_mod_cast hjmem.1
    linarith
  · rw [hdeath]
    have : (j : ℝ) ≤ 100 := by
      have : j ≤ 100 := by omega
      exact_mod_cast this
    linarith

/-- Witness for `C10_death_sampling_total`: all-zero hazards, entry age 40,
draw 1/2, offset 1/2; the sampled death age lies in [40, 101). -/
theorem C10_death_sampling_total_witness :
    ((40 : ℕ) : ℝ) ≤ get_death_ages (fun _ => 0) 40 (1/2) (1/2) ∧
    get_death_ages (fun _ => 0) 40 (1/2) (1/2) < 101 :=
  ⟨(C10_death_sampling_total (fun _ => 0) 40 (1/2) (1/2) (by norm_num) (by norm_num)
      (by norm_num) (by norm_num) (by norm_num)).2.2.2.1,
   (C10_death_sampling_total (fun _ => 0) 40 (1/2) (1/2) (by norm_num) (by norm_num)
      (by norm_num) (by norm_num) (by norm_num)).2.2.2.2⟩

end Survival

namespace Survival

/-- C4: with common random numbers enabled, both runs receive the same
`sample_year`/`sample_cont` arrays indexed by individual
(`get_trajectories_two_scenarios` passes the identical arrays to both
`model_part4` calls); `get_death_ages` then uses only the supplied draws and
the hazard curves — the runs' own fresh random streams (`fresh1*`,
`fresh2*`) are never consulted.  Hence if the two runs' per-individual
hazard curves are identical, the sampled death ages are equal, individual by
individual, whatever each run's internal randomness would have been. -/
theorem C4_crn_death_determinism (H1 H2 : ℕ → ℕ → ℝ) (init_age : ℕ)
    (u c : ℕ → ℝ) (fresh1y fresh1c fresh2y fresh2c : ℕ → ℝ)
    (hH : ∀ p j, H1 p j = H2 p j) :
    ∀ p, get_death_ages_opt (H1 p) init_age (some (u p)) (some (c p))
        (fresh1y p) (fresh1c p)
      = get_death_ages_opt (H2 p) init_age (some (u p)) (some (c p))
        (fresh2y p) (fresh2c p) := by
  intro p
  have hfun : H1 p = H2 p := funext (hH p)
  simp only [get_death_ages_opt, Option.getD_some, hfun]

/-- Witness for `C4_crn_death_determinism`: two runs over identical zero
hazard curves with shared draws but different fresh random streams agree at
individual 0. -/
theorem C4_crn_death_determinism_witness :
    get_death_ages_opt ((fun _ _ => 0) 0) 40 (some ((fun _ => (1:ℝ)/2) 0))
        (some ((fun _ => (1:ℝ)/4) 0)) ((fun _ => (1:ℝ)/3) 0) ((fun _ => (2:ℝ)/3) 0)
      = get_death_ages_opt ((fun _ _ => 0) 0) 40 (some ((fun _ => (1:ℝ)/2) 0))
        (some ((fun _ => (1:ℝ)/4) 0)) ((fun _ => (3:ℝ)/4) 0) ((fun _ => (1:ℝ)/5) 0) :=
  C4_crn_death_determinism (fun _ _ => 0) (fun _ _ => 0) 40 (fun _ => 1/2) (fun _ => 1/4)
    (fun _ => 1/3) (fun _ => 2/3) (fun _ => 3/4) (fun _ => 1/5) (fun _ _ => rfl) 0

end Survival

namespace Comorb

/-- Float division as the source's pandas division behaves: a well-defined
real number only when the denominator is nonzero; `none` models the
NaN/inf results of dividing by zero (pandas raises no exception). -/
noncomputable def divNaN (x y : ℝ) : Option ℝ := if y = 0 then none else some (x / y)

/-- Running cumulative sums (`cumsum`) with accumulator. -/
noncomputable def cumsumFrom (acc : ℝ) : List ℝ → List ℝ
  | [] => []
  | x :: t => (acc + x) :: cumsumFrom (acc + x) t

/-- `hazard.cumsum()` over the age-expanded hazard column. -/
noncomputable def cumsum (l : List ℝ) : List ℝ := cumsumFrom 0 l

/-- Embedding of `get_cdfs` (comorb_helpers.py), single stratum: cumulative
hazard, `cdf = 1 - exp(-cum_hazard)`, `lifetime_risk = cdf.iloc[-1]` (the
last entry; 0 for an empty table), and `cdf_develops = cdf / lifetime_risk`
— the division is performed unconditionally, with no guard on a zero
lifetime risk. -/
noncomputable def get_cdfs (hazard : List ℝ) : List ℝ × ℝ × List (Option ℝ) :=
  let cdf := (cumsum hazard).map (fun x => 1 - Real.exp (-x))
  let lifetime_risk := (cdf.getLast?).getD 0
  (cdf, lifetime_risk, cdf.map (fun x => divNaN x lifetime_risk))

/-- The inverse-CDF onset-age draw of `get_comorb_age` step 2
(`sample_cat_vectorized` over the conditional CDF): first index whose CDF
value is ≥ the draw; a NaN CDF value (`none`) compares false, as in numpy. -/
noncomputable def sampleOnsetAge (cdfD : List (Option ℝ)) (u : ℝ) : ℕ :=
  match cdfD.findIdx? (fun x => match x with | some v => decide (u ≤ v) | none => false) with
  | some i => i
  | none => 0

/-- Embedding of `get_comorb_age` (comorb_helpers.py), single stratum with
supplied uniforms: step 1 draws the per-individual Bernoulli indicator
`gets_comorb` with p = lifetime risk (`u < p`), step 2 runs the
inverse-CDF draw plus a continuity offset only over the individuals
selected in step 1 (`query("gets_comorb==1")`). -/
noncomputable def get_comorb_age (pids : List ℕ) (draws : ℕ → ℝ) (risk : ℝ)
    (cdfD : List (Option ℝ)) (onsetDraws contDraws : ℕ → ℝ) : List (ℕ × ℝ) :=
  let gets_comorb := fun p => if draws p < risk then (1 : ℕ) else 0
  let selected := pids.filter (fun p => gets_comorb p = 1)
  selected.map (fun p => (p, (sampleOnsetAge cdfD (onsetDraws p) : ℝ) + contDraws p))

theorem cumsumFrom_zeros :
    ∀ (l : List ℝ) (acc : ℝ), (∀ x ∈ l, x = 0) → ∀ y ∈ cumsumFrom acc l, y = acc
  | [], _, _ => by simp [cumsumFrom]
  | x :: t, acc, hl => by
      intro y hy
      have hx : x = 0 := hl x (by simp)
      simp only [cumsumFrom, hx, add_zero, List.mem_cons] at hy
      rcases hy with rfl | hy
      · rfl
      · exact cumsumFrom_zeros t acc (fun z hz => hl z (by simp [hz])) y hy

/-- C9 counterexample: with the all-zero incidence hazard [0,0,0], the
lifetime risk is 0 and `get_cdfs` nevertheless performs the division of the
CDF by the lifetime risk: the conditional CDF it returns is the undefined
(NaN) column [none, none, none] — the division is not guarded against a
zero denominator. -/
theorem C9_unguarded_division_counterexample :
    (get_cdfs [0, 0, 0]).2.1 = 0 ∧
    (get_cdfs [0, 0, 0]).2.2 = [none, none, none] := by
  constructor
  · simp [get_cdfs, cumsum, cumsumFrom]
  · simp [get_cdfs, cumsum, cumsumFrom, divNaN]

/-- C9 (amended): if the incidence hazard is 0 at every age, the computed
cdf is 0 everywhere and the lifetime risk is 0; the Bernoulli step-1 draw
with p = 0 selects no individual (a nonnegative uniform is never < 0), so
`get_comorb_age` returns the empty frame and the conditional-CDF sampler is
never invoked on any individual — but the division producing the
conditional CDF is NOT guarded: it is evaluated eagerly inside `get_cdfs`
and yields an undefined (NaN) column. -/
theorem C9_zero_hazard_no_onset (hazard : List ℝ) (pids : List ℕ)
    (draws onsetDraws contDraws : ℕ → ℝ)
    (hz : ∀ x ∈ hazard, x = 0) (hd : ∀ p, 0 ≤ draws p) :
    (get_cdfs hazard).2.1 = 0 ∧
    (∀ x ∈ (get_cdfs hazard).1, x = 0) ∧
    (∀ o ∈ (get_cdfs hazard).2.2, o = none) ∧
    get_comorb_age pids draws (get_cdfs hazard).2.1 (get_cdfs hazard).2.2
      onsetDraws contDraws = [] := by
  have hcdf : ∀ x ∈ (get_cdfs hazard).1, x = 0 := by
    intro x hx
    simp only [get_cdfs, List.mem_map] at hx
    obtain ⟨y, hy, rfl⟩ := hx
    have : y = 0 := cumsumFrom_zeros hazard 0 hz y hy
    simp [this]
  have hrisk : (get_cdfs hazard).2.1 = 0 := by
    rcases hlast : (get_cdfs hazard).1.getLast? with _ | x
    · show ((get_cdfs hazard).1.getLast?).getD 0 = 0
      rw [hlast]
      rfl
    · show ((get_cdfs hazard).1.getLast?).getD 0 = 0
      rw [hlast]
      exact hcdf x (List.mem_of_mem_getLast? hlast)
  refine ⟨hrisk, hcdf, ?_, ?_⟩
  · intro o ho
    have hR : (Option.map (fun x => 1 - Real.exp (-x)) (cumsum hazard).getLast?).getD 0 = 0 := by
      simpa [get_cdfs] using hrisk
    simp only [get_cdfs, List.mem_map] at ho
    obtain ⟨y, hy, rfl⟩ := ho
    simp [divNaN, hR]
  · unfold get_comorb_age
    rw [hrisk]
    have : pids.filter (fun p => (if draws p < 0 then (1 : ℕ) else 0) = 1) = [] := by
      apply List.filter_eq_nil_iff.mpr
      intro p _
      simp [not_lt.mpr (hd p)]
    simp only [this, List.map_nil]

/-- Witness for `C9_zero_hazard_no_onset`: the all-zero hazard [0,0,0] and
a two-person cohort with draws 1/2. -/
theorem C9_zero_hazard_no_onset_witness :
    get_comorb_age [0, 1] (fun _ => 1/2) (get_cdfs [0, 0, 0]).2.1
      (get_cdfs [0, 0, 0]).2.2 (fun _ => 1/2) (fun _ => 1/2) = [] :=
  (C9_zero_hazard_no_onset [0, 0, 0] [0, 1] (fun _ => 1/2) (fun _ => 1/2) (fun _ => 1/2)
    (fun x hx => by simpa using hx)
    (fun _ => by norm_num)).2.2.2

end Comorb

namespace EgfrModel

/-- The terminal row built from `df_death` in `model_part4`: the individual's
id, the sampled death age, and `death = 1`.  The remaining columns are NaN
until the final `ffill`/last-two-rows eGFR update, neither of which alters
`pid`, `age` or `death`. -/
def mkDeathRow (p : ℕ) (death_age : ℚ) : Row :=
  ⟨p, death_age, 0, 0, 0, 0, 0, 0, 0, 1, "", "", none⟩

/-- Embedding of `combine_with_death` (egfr_model.py) restricted to one
individual `p`: the event rows merged with the death age are filtered by
`query("age < death_age")` (strictly earlier), and the death row is
concatenated; after `sort_index` it is the last row since every kept event
row is strictly earlier. -/
def combine_with_death (events : List Row) (deathAges : ℕ → ℚ) (p : ℕ) : List Row :=
  (events.filter (fun r => r.pid = p ∧ r.age < deathAges p)) ++ [mkDeathRow p (deathAges p)]

/-- C7: in phase 4's output for each individual, (i) the final row is the
terminal death row, with `death = 1`; (ii) no row sits at an age ≥ the
sampled death age except that terminal row; (iii) all ages stay ≤ the
horizon 101, given the phase-3 assertion that event ages are ≤ 101 and a
death age ≤ 101; and (iv) the death ages produced by `model_part4`
(`get_death_ages` output rounded to 2 decimals, i.e. a year ≤ 100 plus an
offset < 1) are indeed ≤ 101. -/
theorem C7_combine_with_death_spec (events : List Row) (deathAges : ℕ → ℚ) (p : ℕ)
    (hev : ∀ r ∈ events, r.age ≤ 101) (hda : deathAges p ≤ 101) :
    ((combine_with_death events deathAges p).getLast? = some (mkDeathRow p (deathAges p)) ∧
      (mkDeathRow p (deathAges p)).death = 1) ∧
    (∀ r ∈ combine_with_death events deathAges p,
      deathAges p ≤ r.age → r = mkDeathRow p (deathAges p)) ∧
    (∀ r ∈ combine_with_death events deathAges p, r.age ≤ 101) ∧
    (∀ y c : ℚ, y ≤ 100 → c < 1 → round2q (y + c) ≤ 101) := by
  refine ⟨⟨?_, rfl⟩, ?_, ?_, ?_⟩
  · unfold combine_with_death
    rw [List.getLast?_append]
    rfl
  · intro r hr hage
    unfold combine_with_death at hr
    rcases List.mem_append.mp hr with hr | hr
    · have := (List.mem_filter.mp hr).2
      simp only [decide_eq_true_eq] at this
      exact absurd hage (not_le.mpr this.2)
    · simpa using hr
  · intro r hr
    unfold combine_with_death at hr
    rcases List.mem_append.mp hr with hr | hr
    · exact hev r (List.mem_filter.mp hr).1
    · have : r = mkDeathRow p (deathAges p) := by simpa using hr
      rw [this]
      exact hda
  · intro y c hy hc
    unfold round2q
    rw [round_eq]
    have hfloor : ⌊(y + c) * 100 + 1 / 2⌋ ≤ 10100 := by
      rw [Int.floor_le_iff]
      push_cast
      linarith
    have : ((⌊(y + c) * 100 + 1 / 2⌋ : ℤ) : ℚ) ≤ 10100 := by exact_mod_cast hfloor
    linarith

/-- Witness for `C7_combine_with_death_spec`: a two-row event frame (an
observation at age 50 and the age-101 death placeholder) with sampled death
age 80.5; the last row of the combined trajectory is the terminal death
row. -/
theorem C7_combine_with_death_spec_witness :
    (combine_with_death
      [⟨0, 50, 80, 1, 0, 0, 0, 0, 0, 0, "F", "B", none⟩,
       ⟨0, 101, 29, 1, 0, 0, 0, 0, 0, 1, "F", "B", none⟩]
      (fun _ => 81/2 + 40) 0).getLast? = some (mkDeathRow 0 ((fun _ : ℕ => (81:ℚ)/2 + 40) 0)) ∧
    (mkDeathRow 0 ((fun _ : ℕ => (81:ℚ)/2 + 40) 0)).death = 1 :=
  (C7_combine_with_death_spec
    [⟨0, 50, 80, 1, 0, 0, 0, 0, 0, 0, "F", "B", none⟩,
     ⟨0, 101, 29, 1, 0, 0, 0, 0, 0, 1, "F", "B", none⟩]
    (fun _ => 81/2 + 40) 0
    (by intro r hr
        rcases List.mem_cons.mp hr with rfl | hr
        · norm_num
        · rcases List.mem_cons.mp hr with rfl | hr
          · norm_num
          · simp at hr)
    (by norm_num)).1

end EgfrModel

namespace EgfrModel

def defaultRow : Row := ⟨0, 0, 0, 0, 0, 0, 0, 0, 0, 0, "", "", none⟩

/-- Aggregation of one (`pid`,`age`) group after the concat in
`update_frame_with_cutoff_event`, per `agg_dictionary_one_age`
(egfr_model.py): `egfr` mean, indicators max, `sex`/`race` first, `slope`
last, `stage_diag` first non-null.  The group lists the `at_cutoff` rows
before the `df` rows, as in `pd.concat([at_cutoff, df])`. -/
def aggRowsOneAge (group : List Row) : Row :=
  match group with
  | [] => defaultRow
  | g0 :: _ =>
    { pid := g0.pid
      age := g0.age
      egfr := (group.map (·.egfr)).sum / (group.length : ℚ)
      slope := ((group.getLast?).getD g0).slope
      dm := (group.map (·.dm)).foldr max 0
      ht := (group.map (·.ht)).foldr max 0
      g3 := (group.map (·.g3)).foldr max 0
      diag := (group.map (·.diag)).foldr max 0
      nephr := (group.map (·.nephr)).foldr max 0
      death := (group.map (·.death)).foldr max 0
      sex := g0.sex
      race := g0.race
      stage_diag := (group.filterMap (·.stage_diag)).head? }

/-- `pd.concat([at_cutoff, df]).sort_index().groupby(level=["pid","age"])
.agg(agg_dictionary_one_age)` for one individual: group the concatenated
rows by age (groupby sorts the keys ascending) and aggregate each group. -/
def mergeByAge (atCutoff df : List Row) : List Row :=
  (((atCutoff ++ df).map (·.age)).dedup.insertionSort (· ≤ ·)).map
    (fun a => aggRowsOneAge ((atCutoff ++ df).filter (·.age = a)))

/-- `groupby(level='pid')["diag"].cummax()` along one individual's rows. -/
def cummaxDiag : ℕ → List Row → List Row
  | _, [] => []
  | m, r :: t => { r with diag := max m r.diag } :: cummaxDiag (max m r.diag) t

/-- `groupby(level='pid')["nephr"].cummax()`. -/
def cummaxNephr : ℕ → List Row → List Row
  | _, [] => []
  | m, r :: t => { r with nephr := max m r.nephr } :: cummaxNephr (max m r.nephr) t

/-- `groupby(level='pid')["g3"].cummax()` (the single-indicator call used
for the G3a onset event). -/
def cummaxG3 : ℕ → List Row → List Row
  | _, [] => []
  | m, r :: t => { r with g3 := max m r.g3 } :: cummaxG3 (max m r.g3) t

/-- The two multiplicative intervention effects
(`params["model"]["interv_params"][*]["eff"]`). -/
structure InterventionEffects where
  nephr_eff : ℚ
  diag_eff : ℚ
  deriving DecidableEq, Repr

/-- Embedding of `get_slope_reduction` (interventions.py). -/
def get_slope_reduction (slope : ℚ) (interv_nephr interv_diag : ℕ)
    (eff : InterventionEffects) : ℚ :=
  if interv_nephr = 1 then slope * (1 - max eff.nephr_eff eff.diag_eff)
  else if interv_diag = 1 then slope * (1 - eff.diag_eff)
  else slope

/-- Embedding of `update_slopes` (egfr_model.py): look the slope up by the
(dm, ht, g3) covariates, then apply the intervention reduction. -/
def update_slopes (df : List Row) (slopeTable : ℕ → ℕ → ℕ → ℚ)
    (eff : InterventionEffects) : List Row :=
  df.map (fun r =>
    { r with slope := get_slope_reduction (slopeTable r.dm r.ht r.g3) r.nephr r.diag eff })

/-- `full_at_cutoff.update(updated_subset)`: rows aligned by the (pid, age)
key are overwritten with the recomputed row (all of whose columns are
non-NaN); other rows are kept. -/
def updateFrame (full updated : List Row) : List Row :=
  full.map (fun r =>
    match updated.find? (fun s => s.age = r.age) with
    | some s => s
    | none => r)

/-- Aggregation of one (`pid`,`egfr`) group in `integrate_duplicate_rows`
with `keep_var="egfr"`: mean age rounded to 2 decimals, indicators max,
`slope` last, `sex`/`race` first (`stage_diag` was dropped before this
call). -/
def aggRowsOneEgfr (group : List Row) : Row :=
  match group with
  | [] => defaultRow
  | g0 :: _ =>
    { pid := g0.pid
      age := round2q ((group.map (·.age)).sum / (group.length : ℚ))
      egfr := g0.egfr
      slope := ((group.getLast?).getD g0).slope
      dm := (group.map (·.dm)).foldr max 0
      ht := (group.map (·.ht)).foldr max 0
      g3 := (group.map (·.g3)).foldr max 0
      diag := (group.map (·.diag)).foldr max 0
      nephr := (group.map (·.nephr)).foldr max 0
      death := (group.map (·.death)).foldr max 0
      sex := g0.sex
      race := g0.race
      stage_diag := none }

/-- Embedding of `integrate_duplicate_rows` with `keep_var="egfr"`
(egfr_model.py) for one individual: if no (`pid`,`egfr`) key is duplicated
the frame is returned unchanged; otherwise rows sharing an eGFR value are
aggregated (mean age) and the result is re-sorted by age. -/
def integrate_duplicate_rows (df : List Row) : List Row :=
  if (df.map (fun r => (r.pid, r.egfr))).Nodup then df
  else
    (((df.map (·.egfr)).dedup).map
      (fun e => aggRowsOneEgfr (df.filter (·.egfr = e)))).insertionSort
      (fun a b => a.age ≤ b.age)

/-- Embedding of `update_frame_with_cutoff_event` with
`indicator_name=["diag","nephr"], multiple_indic=True` (egfr_model.py) for
one individual: merge-and-aggregate, forward-propagate `diag` and `nephr`
by cumulative max, select the rows with either indicator set, recompute
their slopes and re-integrate the decline, write the recomputed rows back,
drop `stage_diag`, and reconcile duplicate (`pid`,`egfr`) rows. -/
def update_frame_diag_nephr (df atCutoff : List Row)
    (slopeTable : ℕ → ℕ → ℕ → ℚ) (eff : InterventionEffects) : List Row :=
  let full := cummaxNephr 0 (cummaxDiag 0 (mergeByAge atCutoff df))
  let to_update := full.filter (fun r => r.diag = 1 ∨ r.nephr = 1)
  if to_update.length = 0 then full
  else
    integrate_duplicate_rows
      ((updateFrame full (get_decline (update_slopes to_update slopeTable eff))).map
        (fun r => { r with stage_diag := none }))

/-- Embedding of `update_frame_with_cutoff_event` with a single indicator
(`indicator_name="g3"`, the G3a onset call) for one individual. -/
def update_frame_g3 (df atCutoff : List Row)
    (slopeTable : ℕ → ℕ → ℕ → ℚ) (eff : InterventionEffects) : List Row :=
  let full := cummaxG3 0 (mergeByAge atCutoff df)
  let to_update := full.filter (fun r => r.g3 = 1)
  if to_update.length = 0 then full
  else
    integrate_duplicate_rows
      ((updateFrame full (get_decline (update_slopes to_update slopeTable eff))).map
        (fun r => { r with stage_diag := none }))

end EgfrModel

namespace EgfrModel

/-- A two-row trajectory whose recorded slope (0.1/yr) understates the
realized eGFR fall (50 → 40 over ages 50 → 60, during which `dm` flips to
1); such slope/eGFR mismatches arise in the pipeline from the eGFR-mean
reconciliation of duplicate rows and the slope re-derivation (rounded to 3
decimals) in `translate_trajectory`. -/
def dfC8 : List Row :=
  [⟨0, 50, 50, 1/10, 0, 0, 0, 0, 0, 0, "F", "B", none⟩,
   ⟨0, 60, 40, 1/10, 1, 0, 0, 0, 0, 0, "F", "B", none⟩]

/-- The crossing row `identify_age_at_cutoff` computes for `dfC8` at cutoff
45: interpolated from the age-50 row (the last row with eGFR > 45), it
lands at age 100 — after the `dm = 1` row at age 60 — and inherits the
stale `dm = 0` from the age-50 row. -/
def xC8 : Row := ⟨0, 100, 45, 1/10, 0, 0, 0, 0, 0, 0, "F", "B", none⟩

/-- C8 counterexample: the merge step does NOT re-establish monotonicity of
every indicator: `update_frame_with_cutoff_event` forward-propagates only
the merged indicator (`g3` here; `diag`/`nephr` in the intervention calls)
with a cumulative max — `dm`, `ht` and `death` are not cummaxed.  Merging
the crossing row produced by `identify_age_at_cutoff` itself yields the
`dm` column [0, 1, 0] along one individual's trajectory. -/
theorem C8_merge_not_monotone_counterexample :
    identify_age_at_cutoff dfC8 45 = [xC8] ∧
    update_frame_g3 dfC8 [{ xC8 with g3 := 1 }] (fun _ _ _ => 1) ⟨0, 0⟩
      = [⟨0, 50, 50, 1/10, 0, 0, 0, 0, 0, 0, "F", "B", none⟩,
         ⟨0, 60, 40, 1/10, 1, 0, 0, 0, 0, 0, "F", "B", none⟩,
         ⟨0, 100, 45, 1, 0, 0, 1, 0, 0, 0, "F", "B", none⟩] ∧
    ¬ List.Chain' (fun a b => a.dm ≤ b.dm)
      (update_frame_g3 dfC8 [{ xC8 with g3 := 1 }] (fun _ _ _ => 1) ⟨0, 0⟩) := by
  have h50 : round2q 50 = 50 := by norm_num [round2q, round_eq]
  have h40 : round2q 40 = 40 := by norm_num [round2q, round_eq]
  have h100 : round2q (50 + (50 - 45) / (1/10)) = 100 := by norm_num [round2q, round_eq]
  have h100b : round2q 100 = 100 := by norm_num [round2q, round_eq]
  have h1 : identify_age_at_cutoff dfC8 45 = [xC8] := by
    norm_num [identify_age_at_cutoff, lastsOf, pidsOf, lastRowOf, overOf, ignoreOf,
      entries_at_cutoffs, interpRow, dfC8, xC8, h50, h40, h100, h100b,
      List.dedup_cons_of_not_mem, List.dedup_nil, List.filter, List.find?]
  have h2 : update_frame_g3 dfC8 [{ xC8 with g3 := 1 }] (fun _ _ _ => 1) ⟨0, 0⟩
      = [⟨0, 50, 50, 1/10, 0, 0, 0, 0, 0, 0, "F", "B", none⟩,
         ⟨0, 60, 40, 1/10, 1, 0, 0, 0, 0, 0, "F", "B", none⟩,
         ⟨0, 100, 45, 1, 0, 0, 1, 0, 0, 0, "F", "B", none⟩] := by
    norm_num [update_frame_g3, mergeByAge, aggRowsOneAge, cummaxG3, update_slopes,
      get_slope_reduction, get_decline, declineFrom, updateFrame,
      integrate_duplicate_rows, dfC8, xC8,
      List.dedup_cons_of_not_mem, List.dedup_cons_of_mem, List.dedup_nil,
      List.insertionSort, List.orderedInsert, List.filter, List.find?, List.getLast?,
      List.filterMap]
  refine ⟨h1, h2, ?_⟩
  rw [h2]
  simp [List.chain'_cons]
end EgfrModel

namespace EgfrModel

/-- The key-plus-indicators projection of a row: age and the six binary
indicator columns (everything the merge step must keep aligned apart from
`egfr`/`slope`). -/
def ageInd (r : Row) : ℚ × ℕ × ℕ × ℕ × ℕ × ℕ × ℕ :=
  (r.age, r.dm, r.ht, r.g3, r.diag, r.nephr, r.death)

def noEgfrDup (l : List Row) : Prop := (l.map (fun r => (r.pid, r.egfr))).Nodup

/-- The merged-and-cummaxed frame of `update_frame_with_cutoff_event` in the
diag/nephr call. -/
def fullMerged (df atCutoff : List Row) : List Row :=
  cummaxNephr 0 (cummaxDiag 0 (mergeByAge atCutoff df))

/-- The intermediate frame just before `integrate_duplicate_rows`. -/
def midFrame (df atCutoff : List Row) (tab : ℕ → ℕ → ℕ → ℚ)
    (eff : InterventionEffects) : List Row :=
  (updateFrame (fullMerged df atCutoff)
    (get_decline (update_slopes
      ((fullMerged df atCutoff).filter (fun r => r.diag = 1 ∨ r.nephr = 1)) tab eff))).map
    (fun r => { r with stage_diag := none })

theorem update_frame_diag_nephr_eq (df atCutoff : List Row) (tab : ℕ → ℕ → ℕ → ℚ)
    (eff : InterventionEffects) :
    update_frame_diag_nephr df atCutoff tab eff
      = if ((fullMerged df atCutoff).filter (fun r => r.diag = 1 ∨ r.nephr = 1)).length = 0
        then fullMerged df atCutoff
        else integrate_duplicate_rows (midFrame df atCutoff tab eff) := rfl

theorem cummaxDiag_chain :
    ∀ (l : List Row) (m : ℕ),
      List.Chain' (fun a b => a.diag ≤ b.diag) (cummaxDiag m l)
  | [], _ => by simp [cummaxDiag]
  | [r], _ => by simp [cummaxDiag]
  | r :: r' :: t, m => by
      have ih := cummaxDiag_chain (r' :: t) (max m r.diag)
      rw [show cummaxDiag m (r :: r' :: t)
          = { r with diag := max m r.diag } ::
            ({ r' with diag := max (max m r.diag) r'.diag } ::
              cummaxDiag (max (max m r.diag) r'.diag) t) from rfl]
      rw [show cummaxDiag (max m r.diag) (r' :: t)
          = { r' with diag := max (max m r.diag) r'.diag } ::
            cummaxDiag (max (max m r.diag) r'.diag) t from rfl] at ih
      exact List.chain'_cons.mpr ⟨le_max_left _ _, ih⟩

theorem cummaxNephr_chain :
    ∀ (l : List Row) (m : ℕ),
      List.Chain' (fun a b => a.nephr ≤ b.nephr) (cummaxNephr m l)
  | [], _ => by simp [cummaxNephr]
  | [r], _ => by simp [cummaxNephr]
  | r :: r' :: t, m => by
      have ih := cummaxNephr_chain (r' :: t) (max m r.nephr)
      rw [show cummaxNephr m (r :: r' :: t)
          = { r with nephr := max m r.nephr } ::
            ({ r' with nephr := max (max m r.nephr) r'.nephr } ::
              cummaxNephr (max (max m r.nephr) r'.nephr) t) from rfl]
      rw [show cummaxNephr (max m r.nephr) (r' :: t)
          = { r' with nephr := max (max m r.nephr) r'.nephr } ::
            cummaxNephr (max (max m r.nephr) r'.nephr) t from rfl] at ih
      exact List.chain'_cons.mpr ⟨le_max_left _ _, ih⟩

theorem cummaxG3_chain :
    ∀ (l : List Row) (m : ℕ),
      List.Chain' (fun a b => a.g3 ≤ b.g3) (cummaxG3 m l)
  | [], _ => by simp [cummaxG3]
  | [r], _ => by simp [cummaxG3]
  | r :: r' :: t, m => by
      have ih := cummaxG3_chain (r' :: t) (max m r.g3)
      rw [show cummaxG3 m (r :: r' :: t)
          = { r with g3 := max m r.g3 } ::
            ({ r' with g3 := max (max m r.g3) r'.g3 } ::
              cummaxG3 (max (max m r.g3) r'.g3) t) from rfl]
      rw [show cummaxG3 (max m r.g3) (r' :: t)
          = { r' with g3 := max (max m r.g3) r'.g3 } ::
            cummaxG3 (max (max m r.g3) r'.g3) t from rfl] at ih
      exact List.chain'_cons.mpr ⟨le_max_left _ _, ih⟩

theorem cummaxDiag_map {α : Type} (f : Row → α)
    (hf : ∀ (r : Row) (v : ℕ), f { r with diag := v } = f r) :
    ∀ (l : List Row) (m : ℕ), (cummaxDiag m l).map f = l.map f
  | [], _ => rfl
  | r :: t, m => by
      simp only [cummaxDiag, List.map_cons, hf, cummaxDiag_map f hf t]

theorem cummaxNephr_map {α : Type} (f : Row → α)
    (hf : ∀ (r : Row) (v : ℕ), f { r with nephr := v } = f r) :
    ∀ (l : List Row) (m : ℕ), (cummaxNephr m l).map f = l.map f
  | [], _ => rfl
  | r :: t, m => by
      simp only [cummaxNephr, List.map_cons, hf, cummaxNephr_map f hf t]

theorem declineFrom_map {α : Type} (f : Row → α)
    (hf : ∀ (r : Row) (v : ℚ), f { r with egfr := v } = f r) (init : ℚ) :
    ∀ (l : List Row) (acc : ℚ), (declineFrom init acc l).map f = l.map f
  | [], _ => rfl
  | [r], acc => by simp [declineFrom, hf]
  | r :: r' :: t, acc => by
      simp only [declineFrom, List.map_cons, hf,
        declineFrom_map f hf init (r' :: t)]

theorem get_decline_map {α : Type} (f : Row → α)
    (hf : ∀ (r : Row) (v : ℚ), f { r with egfr := v } = f r) (l : List Row) :
    (get_decline l).map f = l.map f := by
  cases l with
  | nil => rfl
  | cons r t => exact declineFrom_map f hf r.egfr (r :: t) 0

theorem update_slopes_map_ageInd (l : List Row) (tab : ℕ → ℕ → ℕ → ℚ)
    (eff : InterventionEffects) :
    (update_slopes l tab eff).map ageInd = l.map ageInd := by
  unfold update_slopes
  rw [List.map_map]
  exact List.map_congr_left (fun a _ => rfl)

theorem updated_map_ageInd (l : List Row) (tab : ℕ → ℕ → ℕ → ℚ)
    (eff : InterventionEffects) :
    (get_decline (update_slopes l tab eff)).map ageInd = l.map ageInd := by
  rw [get_decline_map ageInd (fun r v => rfl), update_slopes_map_ageInd]

theorem aggRowsOneAge_age (l : List Row) (a : ℚ) (h : ∀ r ∈ l, r.age = a)
    (hne : l ≠ []) : (aggRowsOneAge l).age = a := by
  cases l with
  | nil => exact absurd rfl hne
  | cons g0 t => simpa [aggRowsOneAge] using h g0 (by simp)

theorem mergeByAge_map_age (atCutoff df : List Row) :
    (mergeByAge atCutoff df).map (·.age)
      = ((atCutoff ++ df).map (·.age)).dedup.insertionSort (· ≤ ·) := by
  unfold mergeByAge
  rw [List.map_map]
  nth_rewrite 2 [show (((atCutoff ++ df).map (·.age)).dedup.insertionSort (· ≤ ·))
    = (((atCutoff ++ df).map (·.age)).dedup.insertionSort (· ≤ ·)).map id from
    (List.map_id _).symm]
  apply List.map_congr_left
  intro a ha
  have hmem : a ∈ ((atCutoff ++ df).map (·.age)).dedup :=
    ((List.perm_insertionSort _ _).mem_iff).mp ha
  rw [List.mem_dedup, List.mem_map] at hmem
  obtain ⟨r, hr, hra⟩ := hmem
  have hrf : r ∈ (atCutoff ++ df).filter (·.age = a) :=
    List.mem_filter.mpr ⟨hr, by simpa using hra⟩
  exact aggRowsOneAge_age _ a
    (fun s hs => by simpa using (List.mem_filter.mp hs).2)
    (List.ne_nil_of_mem hrf)

theorem fullMerged_ages_nodup (df atCutoff : List Row) :
    ((fullMerged df atCutoff).map (·.age)).Nodup := by
  unfold fullMerged
  rw [cummaxNephr_map (·.age) (fun _ _ => rfl), cummaxDiag_map (·.age) (fun _ _ => rfl),
    mergeByAge_map_age]
  exact ((List.perm_insertionSort _ _).nodup_iff).mpr (List.nodup_dedup _)

theorem updateFrame_map_ageInd (full updated : List Row)
    (hages : (full.map (·.age)).Nodup)
    (hsub : ∀ s ∈ updated, ∃ r0 ∈ full, ageInd s = ageInd r0) :
    (updateFrame full updated).map ageInd = full.map ageInd := by
  unfold updateFrame
  rw [List.map_map]
  apply List.map_congr_left
  intro r hr
  simp only [Function.comp]
  split
  · next s hfind =>
      have hs : s.age = r.age := by simpa using List.find?_some hfind
      obtain ⟨r0, hr0, heq⟩ := hsub s (List.mem_of_find?_eq_some hfind)
      have hage0 : r0.age = r.age := by
        have h1 : s.age = r0.age := congrArg Prod.fst heq
        rw [← h1, hs]
      have : r0 = r := List.inj_on_of_nodup_map hages hr0 hr hage0
      rw [heq, this]
  · rfl

end EgfrModel

namespace EgfrModel

theorem map_diag_of_map_ageInd {x y : List Row}
    (h : x.map ageInd = y.map ageInd) : x.map (·.diag) = y.map (·.diag) := by
  have h2 := congrArg (List.map (fun p : ℚ × ℕ × ℕ × ℕ × ℕ × ℕ × ℕ => p.2.2.2.2.1)) h
  rw [List.map_map, List.map_map] at h2
  have hc : ((fun p : ℚ × ℕ × ℕ × ℕ × ℕ × ℕ × ℕ => p.2.2.2.2.1) ∘ ageInd)
      = (fun r : Row => r.diag) := funext (fun _ => rfl)
  rwa [hc] at h2

theorem map_nephr_of_map_ageInd {x y : List Row}
    (h : x.map ageInd = y.map ageInd) : x.map (·.nephr) = y.map (·.nephr) := by
  have h2 := congrArg (List.map (fun p : ℚ × ℕ × ℕ × ℕ × ℕ × ℕ × ℕ => p.2.2.2.2.2.1)) h
  rw [List.map_map, List.map_map] at h2
  have hc : ((fun p : ℚ × ℕ × ℕ × ℕ × ℕ × ℕ × ℕ => p.2.2.2.2.2.1) ∘ ageInd)
      = (fun r : Row => r.nephr) := funext (fun _ => rfl)
  rwa [hc] at h2

/-- C8 (amended): within the merge step `update_frame_with_cutoff_event`
only the newly merged indicator columns are forward-propagated with a
per-individual cumulative max — `diag` and `nephr` in the intervention
calls (or `g3` in the G3a-onset call) — and those columns ARE monotonically
non-decreasing along each individual's merged trajectory; the subsequent
slope update and decline re-integration leave age and every indicator
column unchanged, so they preserve the property (here under the
no-duplicate-eGFR guard of `integrate_duplicate_rows`, which then returns
the frame unchanged).  Indicators that are not being merged (dm, ht,
death) are NOT cummaxed and are only preserved by inheritance — see the
counterexample. -/
theorem C8_indicator_monotonicity (df atCutoff : List Row)
    (tab : ℕ → ℕ → ℕ → ℚ) (eff : InterventionEffects)
    (hnd : noEgfrDup (midFrame df atCutoff tab eff)) :
    List.Chain' (fun a b => a.diag ≤ b.diag)
      (update_frame_diag_nephr df atCutoff tab eff) ∧
    List.Chain' (fun a b => a.nephr ≤ b.nephr)
      (update_frame_diag_nephr df atCutoff tab eff) ∧
    (∀ (l : List Row) (m : ℕ),
      List.Chain' (fun a b => a.g3 ≤ b.g3) (cummaxG3 m l)) ∧
    (∀ l : List Row, (get_decline (update_slopes l tab eff)).map ageInd = l.map ageInd) := by
  have hdiag_full : List.Chain' (fun a b => a.diag ≤ b.diag) (fullMerged df atCutoff) := by
    have h1 := cummaxDiag_chain (mergeByAge atCutoff df) 0
    have h2 := (@List.chain'_map ℕ Row (· ≤ ·) (fun r : Row => r.diag) _).mpr h1
    rw [← cummaxNephr_map (fun r : Row => r.diag) (fun _ _ => rfl)
      (cummaxDiag 0 (mergeByAge atCutoff df)) 0] at h2
    exact (@List.chain'_map ℕ Row (· ≤ ·) (fun r : Row => r.diag) _).mp h2
  have hnephr_full : List.Chain' (fun a b => a.nephr ≤ b.nephr) (fullMerged df atCutoff) :=
    cummaxNephr_chain _ 0
  have hsub : ∀ s ∈ get_decline (update_slopes
      ((fullMerged df atCutoff).filter (fun r => r.diag = 1 ∨ r.nephr = 1)) tab eff),
      ∃ r0 ∈ fullMerged df atCutoff, ageInd s = ageInd r0 := by
    intro s hs
    have hmm : ageInd s ∈ ((fullMerged df atCutoff).filter
        (fun r => r.diag = 1 ∨ r.nephr = 1)).map ageInd := by
      rw [← updated_map_ageInd]
      exact List.mem_map_of_mem ageInd hs
    obtain ⟨r0, hr0, heq⟩ := List.mem_map.mp hmm
    exact ⟨r0, List.mem_of_mem_filter hr0, heq.symm⟩
  have hAI := updateFrame_map_ageInd (fullMerged df atCutoff)
    (get_decline (update_slopes
      ((fullMerged df atCutoff).filter (fun r => r.diag = 1 ∨ r.nephr = 1)) tab eff))
    (fullMerged_ages_nodup df atCutoff) hsub
  have hmid_ageInd : (midFrame df atCutoff tab eff).map ageInd
      = (fullMerged df atCutoff).map ageInd := by
    unfold midFrame
    rw [List.map_map]
    have hc : (ageInd ∘ fun r : Row => { r with stage_diag := none }) = ageInd :=
      funext (fun _ => rfl)
    rw [hc]
    exact hAI
  have hint : integrate_duplicate_rows (midFrame df atCutoff tab eff)
      = midFrame df atCutoff tab eff := by
    have hnd2 : (List.map (fun r => (r.pid, r.egfr)) (midFrame df atCutoff tab eff)).Nodup := hnd
    unfold integrate_duplicate_rows
    rw [if_pos hnd2]
  refine ⟨?_, ?_, cummaxG3_chain, fun l => updated_map_ageInd l tab eff⟩
  · rw [update_frame_diag_nephr_eq]
    split_ifs with hlen
    · exact hdiag_full
    · rw [hint]
      have hcol := map_diag_of_map_ageInd hmid_ageInd
      have h2 := (@List.chain'_map ℕ Row (· ≤ ·) (fun r : Row => r.diag) _).mpr hdiag_full
      rw [← hcol] at h2
      exact (@List.chain'_map ℕ Row (· ≤ ·) (fun r : Row => r.diag) _).mp h2
  · rw [update_frame_diag_nephr_eq]
    split_ifs with hlen
    · exact hnephr_full
    · rw [hint]
      have hcol := map_nephr_of_map_ageInd hmid_ageInd
      have h2 := (@List.chain'_map ℕ Row (· ≤ ·) (fun r : Row => r.nephr) _).mpr hnephr_full
      rw [← hcol] at h2
      exact (@List.chain'_map ℕ Row (· ≤ ·) (fun r : Row => r.nephr) _).mp h2

end EgfrModel

namespace EgfrModel

/-- Witness for `C8_indicator_monotonicity`: the merge step applied to
`dfC8` with no new cutoff rows; the no-duplicate-eGFR guard holds and the
diag column of the output is monotone. -/
theorem C8_indicator_monotonicity_witness :
    List.Chain' (fun a b => a.diag ≤ b.diag)
      (update_frame_diag_nephr dfC8 [] (fun _ _ _ => 1) ⟨0, 0⟩) :=
  (C8_indicator_monotonicity dfC8 [] (fun _ _ _ => 1) ⟨0, 0⟩
    (by norm_num [noEgfrDup, midFrame, fullMerged, mergeByAge, aggRowsOneAge,
      cummaxDiag, cummaxNephr, updateFrame, update_slopes, get_slope_reduction,
      get_decline, declineFrom, dfC8,
      List.dedup_cons_of_not_mem, List.dedup_cons_of_mem, List.dedup_nil,
      List.insertionSort, List.orderedInsert, List.filter, List.find?,
      List.getLast?, List.filterMap])).1

end EgfrModel
